import Mathlib

/-!
Shallow embedding of the buddy-allocator in `malloc_3.cpp` and proofs about it.

Modelling conventions:
* Addresses and `size_t` values are `Nat`; `size_t` arithmetic is taken
  modulo `2^64` (`wadd` / `wsub`).
* The in-band headers stamped at block starts are modelled by an association
  list `mem : List (Nat × MallocMetadata)`; a later write shadows an earlier
  one (`setH` prepends, `lookupH` finds the first entry).  Reading an address
  that was never stamped returns the zero header (in C this is an
  out-of-contract read of uninitialised memory).
* Each doubly-linked free-list bucket is modelled by the Lean list of block
  addresses along its `next` pointers; unlinking a well-formed node is
  `List.erase` of its (unique) occurrence, and the head-array update of the
  C `remove` corresponds to erasing the head.
* Loops whose C termination argument is an order / size bound are written
  with an explicit fuel argument equal to the number of iterations the C
  loop can still perform (e.g. `MAX_ORDER - order` for the merge loop).
* The OS is an oracle record: the current program break, whether `sbrk`
  succeeds, and the address `mmap` would return (or `none` for failure).
* Payload bytes are not modelled; `scalloc` records the length of the
  `memset` it performs, and the `memmove` in `srealloc` moves no modelled
  state.
-/

namespace Malloc3

/-- `2^64`, the modulus of `size_t` arithmetic. -/
def USIZE : Nat := 18446744073709551616

/-- `size_t` addition. -/
def wadd (x y : Nat) : Nat := (x + y) % USIZE

/-- `size_t` subtraction. -/
def wsub (x y : Nat) : Nat := (x + USIZE - y % USIZE) % USIZE

/-- `const int MAX_SIZE = 100000000;` -/
def MAX_SIZE : Nat := 100000000

/-- `const int MAX_ORDER = 10;` -/
def MAX_ORDER : Nat := 10

/-- `const size_t BLOCK_SIZE = 128 * 1024;` -/
def BLOCK_SIZE : Nat := 131072

/-- `sizeof(MallocMetadata)` on LP64: 8 (size_t) + 8 (bool, padded) + 8 + 8. -/
def metaSize : Nat := 32

/-- The OS page size (4 KiB), used only to state the page-rounding claim. -/
def PAGE_SIZE : Nat := 4096

/-- The header stamped at the start of every block.  The `next`/`prev`
pointers of the C struct are represented by list positions, not fields. -/
structure MallocMetadata where
  size : Nat
  is_free : Bool
deriving DecidableEq

/-- OS oracle: current break, whether `sbrk` succeeds, `mmap` result. -/
structure OS where
  curBrk : Nat
  sbrkOk : Bool
  mmapRes : Option Nat
deriving DecidableEq

/-- The process-wide allocator state of `malloc_3.cpp`:
the lazy-init flag, the header memory, the 11 free-list buckets,
the mmap list and the four `size_t` counters. -/
structure AllocState where
  is_initialized : Bool
  mem : List (Nat × MallocMetadata)
  free_lists : List (List Nat)
  mmap_list : List Nat
  free_blocks : Nat
  free_bytes : Nat
  allocated_blocks : Nat
  allocated_bytes : Nat
deriving DecidableEq

/-- First (most recent) header stamped at address `a`. -/
def lookupH (m : List (Nat × MallocMetadata)) (a : Nat) : Option MallocMetadata :=
  match m with
  | [] => none
  | (b, h) :: rest => if b = a then some h else lookupH rest a

/-- Stamp a header at address `a` (shadows any earlier stamp). -/
def setH (m : List (Nat × MallocMetadata)) (a : Nat) (h : MallocMetadata) :
    List (Nat × MallocMetadata) :=
  (a, h) :: m

/-- Drop every header stamped at `a` (models `munmap` of the span at `a`). -/
def eraseH (m : List (Nat × MallocMetadata)) (a : Nat) : List (Nat × MallocMetadata) :=
  m.filter (fun e => e.1 != a)

/-- Dereference a header pointer (a never-stamped address reads as the zero
header; such a read is out of contract in the C source). -/
def headerAt (st : AllocState) (a : Nat) : MallocMetadata :=
  (lookupH st.mem a).getD ⟨0, false⟩

/-- The chain of free-list bucket `i`. -/
def bucket (st : AllocState) (i : Nat) : List Nat := st.free_lists.getD i []

/-- The walk of `insert`: starting from node `cur`, advance while
`current->next != nullptr && current->next < p`, then splice `p` after
the walker.  Note the walk never compares the head itself with `p`. -/
def spliceAfter (p : Nat) : Nat → List Nat → List Nat
  | cur, [] => [cur, p]
  | cur, nxt :: rest =>
    if nxt < p then cur :: spliceAfter p nxt rest
    else cur :: p :: nxt :: rest

/-- The chain produced in a bucket by `insert(index, p)` (lines 31-54):
empty bucket gets `[p]`; otherwise splice after the walker. -/
def insertChain (p : Nat) : List Nat → List Nat
  | [] => [p]
  | h :: t => spliceAfter p h t

/-- Compute the order of a size: `order = 0; current = 128;
while (current < size && order < MAX_ORDER) { current *= 2; order++; }`.
The fuel is `MAX_ORDER - order`, which the C loop bound makes exact. -/
def findOrderAux (size : Nat) : Nat → Nat → Nat → Nat
  | 0, order, _ => order
  | fuel + 1, order, cur => if cur < size then findOrderAux size fuel (order + 1) (cur * 2) else order

/-- `find_order` (lines 79-87). -/
def find_order (size : Nat) : Nat := findOrderAux size MAX_ORDER 0 128

/-- `insert(index, p)` (lines 31-54): splice `p` into bucket `index`,
then `free_blocks++` and `free_bytes += p->size - sizeof(MallocMetadata)`. -/
def insert (st : AllocState) (index : Nat) (p : Nat) : AllocState :=
  { st with
    free_lists := st.free_lists.set index (insertChain p (bucket st index))
    free_blocks := wadd st.free_blocks 1
    free_bytes := wadd st.free_bytes (wsub (headerAt st p).size metaSize) }

/-- `remove(ptr)` (lines 89-107): unlink `ptr` from bucket
`find_order(ptr->size)`, then `free_blocks--` and
`free_bytes -= ptr->size - sizeof(MallocMetadata)`. -/
def remove (st : AllocState) (ptr : Nat) : AllocState :=
  { st with
    free_lists := st.free_lists.set (find_order (headerAt st ptr).size)
      ((bucket st (find_order (headerAt st ptr).size)).erase ptr)
    free_blocks := wsub st.free_blocks 1
    free_bytes := wsub st.free_bytes (wsub (headerAt st ptr).size metaSize) }

/-- One iteration of the `init` carving loop (lines 68-75): stamp block `i`,
count it as allocated, insert it into bucket `MAX_ORDER`. -/
def initStamp (first : Nat) (st : AllocState) (i : Nat) : AllocState :=
  let addr := first + i * BLOCK_SIZE
  let st1 := { st with
    mem := setH st.mem addr ⟨BLOCK_SIZE, true⟩
    allocated_blocks := wadd st.allocated_blocks 1
    allocated_bytes := wadd st.allocated_bytes (wsub BLOCK_SIZE metaSize) }
  insert st1 MAX_ORDER addr

/-- `init()` (lines 56-77): align the break to `32 * BLOCK_SIZE`, extend it,
carve 32 maximum-order blocks, set `is_initialized`.  If `sbrk` fails the
state is returned unchanged (in particular `is_initialized` stays false). -/
def init (os : OS) (st : AllocState) : AllocState :=
  let total := 32 * BLOCK_SIZE
  let padding := if os.curBrk % total ≠ 0 then total - os.curBrk % total else 0
  if os.sbrkOk = false then st
  else
    let first := os.curBrk + padding
    let st1 := (List.range 32).foldl (initStamp first) st
    { st1 with is_initialized := true }

/-- The bucket scan of `smalloc` (lines 145-150): the first non-empty bucket
at index `cur ≥ power`, or `none` once `cur > MAX_ORDER`.  Fuel 12 covers the
at most 12 loop tests for any starting order. -/
def scanAux (st : AllocState) : Nat → Nat → Option Nat
  | 0, _ => none
  | fuel + 1, cur =>
    if cur > MAX_ORDER then none
    else if bucket st cur = [] then scanAux st fuel (cur + 1)
    else some cur

/-- One iteration of the split loop of `smalloc` (lines 160-170) at current
order `cur`: halve `output`, stamp the upper half as a free buddy, insert it
into bucket `cur - 1`, shrink `output`, and `allocated_blocks++`. -/
def splitStep (st : AllocState) (output cur : Nat) : AllocState :=
  let newSize := (headerAt st output).size / 2
  let buddy := output + newSize
  let st1 := { st with mem := setH st.mem buddy ⟨newSize, true⟩ }
  let st2 := insert st1 (cur - 1) buddy
  { st2 with
    mem := setH st2.mem output ⟨newSize, (headerAt st2 output).is_free⟩
    allocated_blocks := wadd st2.allocated_blocks 1 }

/-- The split loop of `smalloc` (lines 160-171), with `k` splits left and
the current order `cur` (the C condition `current_power > power` holds
exactly `cur - power` times). -/
def splitLoop (st : AllocState) (output : Nat) : Nat → Nat → AllocState
  | _, 0 => st
  | cur, k + 1 => splitLoop (splitStep st output cur) output (cur - 1) k

/-- `smalloc(size)` (lines 109-173).  Returns the new state and the payload
pointer (`none` for `NULL`). -/
def smalloc (os : OS) (st0 : AllocState) (size : Nat) : AllocState × Option Nat :=
  if size = 0 ∨ size > MAX_SIZE then (st0, none)
  else
    let st := if st0.is_initialized = false then init os st0 else st0
    let required := size + metaSize
    let power := find_order required
    if required > BLOCK_SIZE then
      match os.mmapRes with
      | none => (st, none)
      | some a =>
        ({ st with
            mem := setH st.mem a ⟨required, false⟩
            mmap_list := a :: st.mmap_list }, some (a + metaSize))
    else
      match scanAux st 12 power with
      | none => (st, none)
      | some cur =>
        let output := (bucket st cur).headD 0
        let st1 := remove st output
        let st2 := { st1 with mem := setH st1.mem output ⟨(headerAt st1 output).size, false⟩ }
        (splitLoop st2 output cur (cur - power), some (output + metaSize))

/-- One successful iteration of the merge loop of `sfree` (lines 230-240):
unlink the buddy, move `meta` to the lower of the two addresses, double its
size and `allocated_blocks--`.  Returns the new state and block start. -/
def mergeStep (st : AllocState) (meta : Nat) : AllocState × Nat :=
  let sz := (headerAt st meta).size
  let baddr := meta ^^^ sz
  let st1 := remove st baddr
  let meta1 := if baddr < meta then baddr else meta
  ({ st1 with
      mem := setH st1.mem meta1 ⟨sz * 2, (headerAt st1 meta1).is_free⟩
      allocated_blocks := wsub st1.allocated_blocks 1 }, meta1)

/-- The iterative merge loop of `sfree` (lines 218-241).  Fuel is
`MAX_ORDER - order`, so `fuel = 0` is exactly the C exit test
`order < MAX_ORDER` failing.  Returns the state, the final block start and
the final order. -/
def mergeLoop (st : AllocState) (meta order : Nat) : Nat → AllocState × Nat × Nat
  | 0 => (st, meta, order)
  | fuel + 1 =>
    let sz := (headerAt st meta).size
    let b := headerAt st (meta ^^^ sz)
    if b.is_free = false ∨ b.size ≠ sz then (st, meta, order)
    else mergeLoop (mergeStep st meta).1 (mergeStep st meta).2 (order + 1) fuel

/-- `sfree(p)` (lines 187-245): ignore null / too-low pointers; unmap large
blocks; silently absorb a double free of a pooled block; otherwise mark the
block free, run the merge loop and insert the merged block. -/
def sfree (st : AllocState) (p : Nat) : AllocState :=
  if p = 0 ∨ p ≤ metaSize then st
  else
    let meta := p - metaSize
    let h := headerAt st meta
    if h.size > BLOCK_SIZE then
      { st with
        mmap_list := st.mmap_list.erase meta
        mem := eraseH st.mem meta }
    else if h.is_free = true then st
    else
      let order := find_order h.size
      let st1 := { st with mem := setH st.mem meta ⟨h.size, true⟩ }
      match mergeLoop st1 meta order (MAX_ORDER - order) with
      | (st2, meta2, order2) => insert st2 order2 meta2

/-- `scalloc(num, size)` (lines 175-185).  The product `num*size` is `size_t`
multiplication, i.e. taken mod `2^64`.  The third component is the number of
payload bytes the `memset(ptr, 0, num*size)` zeroes on success. -/
def scalloc (os : OS) (st : AllocState) (num size : Nat) : AllocState × Option Nat × Nat :=
  let prod := (num * size) % USIZE
  if num = 0 ∨ size = 0 ∨ size ≥ MAX_SIZE ∨ prod ≥ MAX_SIZE then (st, none, 0)
  else
    match smalloc os st prod with
    | (st1, none) => (st1, none, 0)
    | (st1, some p) => (st1, some p, prod)

/-- The speculative merge probe of `srealloc` (lines 258-279): walk buddies
by size checks only, tracking the running start `curr`, the hypothetical
`psize` and the `can_merge` flag.  Fuel 11 covers the at most 10 doublings
from 128 up to `BLOCK_SIZE`. -/
def specLoop (st : AllocState) (size : Nat) : Nat → Nat → Nat → Bool → Nat × Nat × Bool
  | 0, curr, psize, canm => (curr, psize, canm)
  | fuel + 1, curr, psize, canm =>
    if psize < BLOCK_SIZE ∧ psize < size + metaSize then
      let b := headerAt st (curr ^^^ psize)
      if b.is_free = false ∨ b.size ≠ psize then (curr, psize, false)
      else
        specLoop st size fuel
          (if curr ^^^ psize < curr then curr ^^^ psize else curr)
          (psize * 2) true
    else (curr, psize, canm)

/-- The committed merge loop of `srealloc` (lines 284-299): repeatedly absorb
the free buddy, moving the start (and the caller's payload, not modelled) to
the lower address, until the block has grown to `psize`. -/
def commitLoop (st : AllocState) (old_meta oldp psize : Nat) : Nat → AllocState × Nat × Nat
  | 0 => (st, old_meta, oldp)
  | fuel + 1 =>
    let osz := (headerAt st old_meta).size
    if osz < psize then
      let baddr := old_meta ^^^ osz
      let st1 := remove st baddr
      let om := if baddr < old_meta then baddr else old_meta
      let op := if baddr < old_meta then baddr + metaSize else oldp
      let st2 := { st1 with
        mem := setH st1.mem om ⟨(headerAt st1 om).size * 2, false⟩
        allocated_blocks := wsub st1.allocated_blocks 1 }
      commitLoop st2 om op psize fuel
    else (st, old_meta, oldp)

/-- The speculative probe as `srealloc` invokes it: start at the old block
with its current size and `can_merge = false`. -/
def sreallocSpec (st : AllocState) (om size : Nat) : Nat × Nat × Bool :=
  specLoop st size 11 om (headerAt st om).size false

/-- `srealloc(oldp, size)` (lines 247-311). -/
def srealloc (os : OS) (st : AllocState) (oldp size : Nat) : AllocState × Option Nat :=
  if size = 0 ∨ size ≥ MAX_SIZE then (st, none)
  else if oldp = 0 then smalloc os st size
  else
    let om := oldp - metaSize
    let oh := headerAt st om
    if size ≤ wsub oh.size metaSize then (st, some oldp)
    else if oh.size ≤ BLOCK_SIZE ∧ (sreallocSpec st om size).2.2 = true ∧
        (sreallocSpec st om size).2.1 ≥ size + metaSize then
      match commitLoop st om oldp (sreallocSpec st om size).2.1 11 with
      | (st1, _, op) => (st1, some op)
    else
      match smalloc os st size with
      | (st1, none) => (st1, none)
      | (st1, some np) => (sfree st1 oldp, some np)

/-- The exact condition under which `srealloc(oldp, size)` reaches its
allocate-new / copy / free-old fallback (line 304). -/
def takesFallback (st : AllocState) (oldp size : Nat) : Prop :=
  ¬(size = 0 ∨ size ≥ MAX_SIZE) ∧ oldp ≠ 0 ∧
  ¬(size ≤ wsub (headerAt st (oldp - metaSize)).size metaSize) ∧
  ¬((headerAt st (oldp - metaSize)).size ≤ BLOCK_SIZE ∧
    (sreallocSpec st (oldp - metaSize) size).2.2 = true ∧
    (sreallocSpec st (oldp - metaSize) size).2.1 ≥ size + metaSize)

instance (st : AllocState) (oldp size : Nat) : Decidable (takesFallback st oldp size) :=
  inferInstanceAs (Decidable (¬(size = 0 ∨ size ≥ MAX_SIZE) ∧ oldp ≠ 0 ∧
    ¬(size ≤ wsub (headerAt st (oldp - metaSize)).size metaSize) ∧
    ¬((headerAt st (oldp - metaSize)).size ≤ BLOCK_SIZE ∧
      (sreallocSpec st (oldp - metaSize) size).2.2 = true ∧
      (sreallocSpec st (oldp - metaSize) size).2.1 ≥ size + metaSize)))

/-- `_num_free_blocks()` etc. (lines 313-335). -/
def _num_free_blocks (st : AllocState) : Nat := st.free_blocks

def _num_free_bytes (st : AllocState) : Nat := st.free_bytes

def _num_allocated_blocks (st : AllocState) : Nat := st.allocated_blocks

def _num_allocated_bytes (st : AllocState) : Nat := st.allocated_bytes

/-- The pristine process state: nothing initialised, all counters zero. -/
def st0 : AllocState :=
  ⟨false, [], List.replicate 11 [], [], 0, 0, 0, 0⟩

/-- OS oracle whose `sbrk` fails but whose `mmap` succeeds at 8192. -/
def osFail : OS := ⟨4096, false, some 8192⟩

/-- OS oracle with everything succeeding (break at 4096, `mmap` at 8192). -/
def osGood : OS := ⟨4096, true, some 8192⟩

/-- OS oracle whose `mmap` fails. -/
def osNoMap : OS := ⟨4096, true, none⟩

/-- An initialised state with an empty pool (used for large-path evaluations,
which never consult the pool). -/
def stE : AllocState := { st0 with is_initialized := true }

/-- An initialised steady state holding one free maximum-order block at
address `131072`. -/
def stW : AllocState :=
  ⟨true, [(131072, ⟨131072, true⟩)],
   [[], [], [], [], [], [], [], [], [], [], [131072]], [], 1, 131040, 1, 131040⟩

/-- A state holding one allocated order-0 pooled block at address `131072`. -/
def stA : AllocState :=
  ⟨true, [(131072, ⟨128, false⟩)], List.replicate 11 [], [], 0, 0, 1, 0⟩

/-- A state holding one allocated large (mmapped) block at address `4096`. -/
def stR : AllocState :=
  ⟨true, [(4096, ⟨139264, false⟩)], List.replicate 11 [], [4096], 0, 0, 0, 0⟩

end Malloc3

namespace Malloc3

/-- Whether a bucket chain is in strictly ascending address order along its
`next` pointers (invariant 2 of the specification). -/
def ascChain : List Nat → Bool
  | [] => true
  | [_] => true
  | a :: b :: t => a < b && ascChain (b :: t)

/-- The state reached by `alloc(131040); alloc(131040); release(second)`
starting from the pristine process state. -/
def stC1 : AllocState :=
  sfree (smalloc osGood (smalloc osGood st0 131040).1 131040).1 4325408

/-- C1.  The ordered-insert walk never compares the bucket head with the new
block, so releasing the block at 4325376 while the bucket head is 4456448
leaves the head unchanged and produces a descending adjacent pair: after the
public sequence `alloc(131040); alloc(131040); release(second)` bucket 10
starts `4456448, 4325376`, which is not in strictly ascending address order,
and the lower-address block did not become the head. -/
theorem C1_insert_not_sorted_eval :
    (bucket stC1 10).take 2 = [4456448, 4325376] ∧
    ascChain (bucket stC1 10) = false ∧
    insertChain 4325376 [4456448] = [4456448, 4325376] ∧
    (insertChain 4325376 [4456448]).headD 0 ≠ 4325376 := by
  refine ⟨by decide, by decide, by decide, by decide⟩

/-- C2, counterexample.  With `sbrk` failing, the first `smalloc(100)` fails
and leaves `is_initialized` false; a subsequent large request succeeds via
`mmap`, and a subsequent call on which `sbrk` recovers re-runs (and
completes) initialization — refuting both "initialization is never retried"
and "every subsequent allocation request returns null". -/
theorem C2_counterexample :
    (smalloc osFail st0 100).2 = none ∧
    (smalloc osFail st0 100).1.is_initialized = false ∧
    (smalloc osFail (smalloc osFail st0 100).1 200000).2 = some 8224 ∧
    (smalloc osGood (smalloc osFail st0 100).1 100).2 = some 4194336 ∧
    (smalloc osGood (smalloc osFail st0 100).1 100).1.is_initialized = true := by
  refine ⟨by decide, by decide, by decide, by decide, by decide⟩

/-- C3, counterexample.  From the freshly initialized pool, `alloc(100)`
performs 9 splits: `allocated_blocks` grows from 32 to 41, but
`allocated_bytes` stays 4193280 — it does not shrink by `9 * header_size`
as the claim asserts (the split loop never updates `allocated_bytes`). -/
theorem C3_counterexample :
    (smalloc osGood (init osGood st0) 100).1.allocated_blocks =
      (init osGood st0).allocated_blocks + 9 ∧
    (smalloc osGood (init osGood st0) 100).1.allocated_bytes =
      (init osGood st0).allocated_bytes ∧
    (smalloc osGood (init osGood st0) 100).1.allocated_bytes ≠
      (init osGood st0).allocated_bytes - 9 * metaSize := by
  refine ⟨by decide, by decide, by decide⟩

/-- C4.  `smalloc(200000)` takes the mmap path and stamps
`size = required_size = 200032` without rounding up to a page multiple
(the source even carries a `TODO` to do the rounding), so the stored size is
not a multiple of the page size. -/
theorem C4_unrounded_mmap_size_eval :
    (smalloc osGood stE 200000).2 = some 8224 ∧
    lookupH (smalloc osGood stE 200000).1.mem 8192 = some ⟨200032, false⟩ ∧
    200032 % PAGE_SIZE ≠ 0 ∧
    200032 ≠ PAGE_SIZE * ((200000 + metaSize + PAGE_SIZE - 1) / PAGE_SIZE) := by
  refine ⟨by decide, by decide, by decide, by decide⟩

/-- C5, counterexample.  A successful large allocation leaves
`allocated_blocks` exactly as it was (here 1, not 2), and releasing the
large block leaves it at 1 as well: the counters do not reflect large
blocks at all. -/
theorem C5_counterexample :
    (smalloc osGood stW 200000).2 = some 8224 ∧
    (smalloc osGood stW 200000).1.allocated_blocks = stW.allocated_blocks ∧
    (smalloc osGood stW 200000).1.allocated_blocks ≠ stW.allocated_blocks + 1 ∧
    (sfree (smalloc osGood stW 200000).1 8224).allocated_blocks = stW.allocated_blocks := by
  refine ⟨by decide, by decide, by decide, by decide⟩

/-- C6, counterexample.  `scalloc(2, 50000000)` is rejected although the
true product equals `MAX_SIZE` (the code tests `>=`, the claim `>`), and
`scalloc(2^62 + 25, 4)` succeeds although the true product vastly exceeds
`MAX_SIZE`, because the `size_t` product wraps to 100 — the product test is
not computed with overflow-safe widening. -/
theorem C6_counterexample :
    ((scalloc osGood stW 2 50000000).2.1 = none ∧
      ¬(2 = 0 ∨ 50000000 = 0 ∨ 2 * 50000000 > MAX_SIZE)) ∧
    ((scalloc osGood stW 4611686018427387929 4).2.1 = some 131104 ∧
      4611686018427387929 * 4 > MAX_SIZE) := by
  refine ⟨⟨by decide, by decide⟩, by decide, by decide⟩

end Malloc3

namespace Malloc3

/-- `wadd` stays below the word modulus. -/
theorem wadd_lt (x y : Nat) : wadd x y < USIZE := by
  unfold wadd USIZE; omega

/-- `wsub` stays below the word modulus. -/
theorem wsub_lt (x y : Nat) : wsub x y < USIZE := by
  unfold wsub USIZE; omega

/-- Adding then subtracting the same amount in `size_t` arithmetic is the
identity on in-range values. -/
theorem wsub_wadd (x y : Nat) (hx : x < USIZE) : wsub (wadd x y) y = x := by
  unfold wadd wsub USIZE at *
  omega

/-- Subtracting then adding the same amount in `size_t` arithmetic is the
identity on in-range values. -/
theorem wadd_wsub (x y : Nat) (hx : x < USIZE) : wadd (wsub x y) y = x := by
  unfold wadd wsub USIZE at *
  omega

theorem lookupH_setH_self (m : List (Nat × MallocMetadata)) (a : Nat) (h : MallocMetadata) :
    lookupH (setH m a h) a = some h := by
  simp [lookupH, setH]

theorem lookupH_setH_ne (m : List (Nat × MallocMetadata)) (a b : Nat) (h : MallocMetadata)
    (hne : a ≠ b) : lookupH (setH m a h) b = lookupH m b := by
  simp [lookupH, setH, hne]

theorem getD_set_self {α : Type} (l : List α) (i : Nat) (x d : α) (h : i < l.length) :
    (l.set i x).getD i d = x := by
  induction l generalizing i with
  | nil => simp at h
  | cons a t ih =>
    cases i with
    | zero => simp [List.set]
    | succ j => simpa [List.set] using ih j (by simpa using h)

theorem getD_set_ne {α : Type} (l : List α) (i j : Nat) (x d : α) (h : i ≠ j) :
    (l.set i x).getD j d = l.getD j d := by
  induction l generalizing i j with
  | nil => simp [List.set]
  | cons a t ih =>
    cases i with
    | zero =>
      cases j with
      | zero => exact absurd rfl h
      | succ jj => simp [List.set]
    | succ ii =>
      cases j with
      | zero => simp [List.set]
      | succ jj => simpa [List.set] using ih ii jj (by omega)

theorem set_nil_of_getD_nil (l : List (List Nat)) (i : Nat) (h : l.getD i [] = []) :
    l.set i [] = l := by
  induction l generalizing i with
  | nil => simp
  | cons a t ih =>
    cases i with
    | zero => simp_all
    | succ j => simpa [List.set] using ih j (by simpa using h)

/-- `find_order` maps the exact order-`m` block size back to `m`. -/
theorem find_order_pow : ∀ m : Nat, m < 11 → find_order (128 * 2 ^ m) = m := by
  decide

/-- `128 * 2^j` as a plain power of two. -/
theorem size_as_pow (j : Nat) : 128 * 2 ^ j = 2 ^ (7 + j) := by
  rw [pow_add]; norm_num

theorem size_le_block (j : Nat) (hj : j ≤ 10) : 128 * 2 ^ j ≤ BLOCK_SIZE := by
  have h2 : (2 : Nat) ^ j ≤ 2 ^ 10 := Nat.pow_le_pow_right (by norm_num) hj
  calc 128 * 2 ^ j ≤ 128 * 2 ^ 10 := Nat.mul_le_mul_left _ h2
    _ = BLOCK_SIZE := by norm_num [BLOCK_SIZE]

theorem size_pos (j : Nat) : 0 < 128 * 2 ^ j :=
  Nat.mul_pos (by norm_num) (Nat.pos_pow_of_pos _ (by norm_num))

/-- XOR with a power of two on a value whose low `m+1` bits are clear adds
that power of two (the upward buddy step). -/
theorem xor_two_pow_mul (m q : Nat) :
    (2 ^ (m + 1) * q) ^^^ 2 ^ m = 2 ^ (m + 1) * q + 2 ^ m := by
  apply Nat.eq_of_testBit_eq
  intro i
  have h1 : 2 ^ (m + 1) * q + 2 ^ m = 2 ^ m * (2 * q + 1) := by ring
  have h2 : 2 ^ (m + 1) * q = 2 ^ (m + 1) * q := rfl
  rw [h1, Nat.testBit_xor, Nat.testBit_mul_pow_two, Nat.testBit_mul_pow_two,
    Nat.testBit_two_pow]
  rcases Nat.lt_trichotomy i m with h | h | h
  · have hi1 : ¬ i ≥ m + 1 := by omega
    have hi2 : ¬ i ≥ m := by omega
    have hi3 : m ≠ i := by omega
    simp [hi1, hi2, hi3]
  · subst h
    have hi1 : ¬ i ≥ i + 1 := by omega
    simp [hi1, Nat.testBit_zero]
    omega
  · have hi1 : i ≥ m + 1 := by omega
    have hi2 : i ≥ m := by omega
    have hi3 : m ≠ i := by omega
    have hsub : i - m = (i - (m + 1)) + 1 := by omega
    have hdiv : (2 * q + 1) / 2 = q := by omega
    simp only [hi1, hi2, hi3, ge_iff_le, decide_eq_true_eq, if_true, decide_True,
      Bool.true_and, decide_False, Bool.xor_false, if_pos]
    rw [hsub, Nat.testBit_add_one, hdiv]

/-- The upward buddy step: if `a` is aligned to twice the (power-of-two)
block size `2^m`, its buddy address is `a + 2^m`. -/
theorem xor_aligned_up (m a : Nat) (h : a % (2 ^ (m + 1)) = 0) :
    a ^^^ 2 ^ m = a + 2 ^ m := by
  obtain ⟨q, hq⟩ := Nat.dvd_of_mod_eq_zero h
  subst hq
  exact xor_two_pow_mul m q

/-- For `a` aligned to the (power-of-two) block size `2^m`, the buddy
address is `a + 2^m` or `a - 2^m` (with `a ≥ 2^m` in the latter case); in
particular it never lies in the span `[a, a + 2^m)`. -/
theorem xor_aligned_cases (m a : Nat) (h : a % (2 ^ m) = 0) :
    a ^^^ 2 ^ m = a + 2 ^ m ∨ (2 ^ m ≤ a ∧ a ^^^ 2 ^ m = a - 2 ^ m) := by
  obtain ⟨q, hq⟩ := Nat.dvd_of_mod_eq_zero h
  subst hq
  rcases Nat.even_or_odd q with ⟨r, hr⟩ | ⟨r, hr⟩
  · left
    subst hr
    have he : 2 ^ m * (r + r) = 2 ^ (m + 1) * r := by ring
    rw [he, xor_two_pow_mul]
  · right
    subst hr
    constructor
    · nlinarith [Nat.pos_pow_of_pos m (show 0 < 2 by norm_num)]
    · have he : 2 ^ m * (2 * r + 1) = 2 ^ (m + 1) * r + 2 ^ m := by ring
      rw [he, ← xor_two_pow_mul m r, Nat.xor_assoc, Nat.xor_self, Nat.xor_zero]
      rw [xor_two_pow_mul]
      omega

/-- Characterization of a successful bucket scan: every bucket from the
start up to the hit is empty, the hit is non-empty and within range. -/
theorem scanAux_spec (st : AllocState) :
    ∀ fuel start cur, scanAux st fuel start = some cur →
      start ≤ cur ∧ cur ≤ MAX_ORDER ∧
      (∀ i, start ≤ i → i < cur → bucket st i = []) ∧ bucket st cur ≠ [] := by
  intro fuel
  induction fuel with
  | zero => intro start cur h; simp [scanAux] at h
  | succ f ih =>
    intro start cur h
    unfold scanAux at h
    by_cases h1 : start > MAX_ORDER
    · simp [h1] at h
    · rw [if_neg h1] at h
      by_cases h2 : bucket st start = []
      · rw [if_pos h2] at h
        obtain ⟨hle, hmax, hemp, hne⟩ := ih (start + 1) cur h
        refine ⟨by omega, hmax, ?_, hne⟩
        intro i hi1 hi2
        rcases Nat.eq_or_lt_of_le hi1 with he | hlt
        · exact he ▸ h2
        · exact hemp i (by omega) hi2
      · rw [if_neg h2] at h
        simp at h
        subst h
        exact ⟨le_refl _, by omega, by intro i h1 h2; omega, h2⟩

end Malloc3

namespace Malloc3

/-- A failed `init` (no `sbrk`) leaves the state untouched. -/
theorem init_fail (os : OS) (st : AllocState) (h : os.sbrkOk = false) :
    init os st = st := by
  unfold init
  rw [if_pos h]

theorem getD_replicate_nil : ∀ (n i : Nat), (List.replicate n ([] : List Nat)).getD i [] = [] := by
  intro n
  induction n with
  | zero => intro i; simp
  | succ m ih =>
    intro i
    cases i with
    | zero => simp [List.replicate]
    | succ j => simp [List.replicate, ih j]

/-- The bucket scan fails when every bucket is empty. -/
theorem scanAux_none_of_empty (st : AllocState) (h : ∀ i, bucket st i = []) :
    ∀ fuel start, scanAux st fuel start = none := by
  intro fuel
  induction fuel with
  | zero => intro start; rfl
  | succ f ih =>
    intro start
    unfold scanAux
    by_cases h1 : start > MAX_ORDER
    · rw [if_pos h1]
    · rw [if_neg h1, if_pos (h start)]
      exact ih (start + 1)

/-- On an initialized state, a failing `smalloc` changes nothing. -/
theorem smalloc_fail_state (os : OS) (st : AllocState) (n : Nat)
    (hinit : st.is_initialized = true)
    (hfail : (smalloc os st n).2 = none) : (smalloc os st n).1 = st := by
  unfold smalloc at hfail ⊢
  by_cases hg : n = 0 ∨ n > MAX_SIZE
  · rw [if_pos hg]
  · rw [if_neg hg] at hfail ⊢
    rw [hinit] at hfail ⊢
    simp only [Bool.true_eq_false, if_false] at hfail ⊢
    by_cases hb : n + metaSize > BLOCK_SIZE
    · rw [if_pos hb] at hfail ⊢
      cases hm : os.mmapRes with
      | none => rfl
      | some a => rw [hm] at hfail; simp at hfail
    · rw [if_neg hb] at hfail ⊢
      cases hs : scanAux st 12 (find_order (n + metaSize)) with
      | none => rfl
      | some cur => rw [hs] at hfail; simp at hfail

/-- Unfolding of `smalloc` on the pooled success path: guards pass, the pool
is initialized, the scan finds bucket `cur` with head `h`; the result is the
split loop run on the detached, busy-marked head, and the payload pointer
`h + metaSize`. -/
theorem smalloc_pooled (os : OS) (st : AllocState) (n cur h : Nat) (rest : List Nat)
    (hinit : st.is_initialized = true) (hn : 0 < n) (hbs : n + metaSize ≤ BLOCK_SIZE)
    (hscan : scanAux st 12 (find_order (n + metaSize)) = some cur)
    (hhead : bucket st cur = h :: rest) :
    smalloc os st n =
      (splitLoop
        { remove st h with mem := setH st.mem h ⟨(headerAt st h).size, false⟩ }
        h cur (cur - find_order (n + metaSize)),
       some (h + metaSize)) := by
  have hg : ¬(n = 0 ∨ n > MAX_SIZE) := by
    push_neg
    refine ⟨by omega, ?_⟩
    unfold metaSize BLOCK_SIZE at hbs
    unfold MAX_SIZE
    omega
  have hb : ¬(n + metaSize > BLOCK_SIZE) := by omega
  unfold smalloc
  rw [if_neg hg, hinit]
  simp only [Bool.true_eq_false, if_false]
  rw [if_neg hb, hscan]
  simp only [hhead, List.headD_cons]
  rfl

end Malloc3

namespace Malloc3

/-- C2, amended.  If the data-segment extension fails, `is_initialized`
stays false, so initialization is re-attempted on every later allocation
call; while `sbrk` keeps failing, pooled requests return null with the state
unchanged, but large (page-mapped) requests bypass the pool and succeed
whenever `mmap` does. -/
theorem C2_amended_init_failure (os : OS) (st : AllocState) (a : Nat)
    (hsbrk : os.sbrkOk = false)
    (hinit : st.is_initialized = false)
    (hempty : st.free_lists = List.replicate 11 [])
    (hmmap : os.mmapRes = some a) :
    (∀ n, 0 < n → n + metaSize ≤ BLOCK_SIZE → smalloc os st n = (st, none)) ∧
    (∀ n, 0 < n → n ≤ MAX_SIZE → BLOCK_SIZE < n + metaSize →
      (smalloc os st n).2 = some (a + metaSize) ∧
      (smalloc os st n).1.is_initialized = false) := by
  have hif : init os st = st := init_fail os st hsbrk
  have hbe : ∀ i, bucket st i = [] := by
    intro i
    unfold bucket
    rw [hempty]
    exact getD_replicate_nil 11 i
  constructor
  · intro n hn hbs
    have hg : ¬(n = 0 ∨ n > MAX_SIZE) := by
      push_neg
      refine ⟨by omega, ?_⟩
      unfold metaSize BLOCK_SIZE at hbs
      unfold MAX_SIZE
      omega
    have hb : ¬(n + metaSize > BLOCK_SIZE) := by omega
    unfold smalloc
    rw [if_neg hg, hinit]
    simp only [if_true]
    rw [hif, if_neg hb, scanAux_none_of_empty st hbe 12 (find_order (n + metaSize))]
  · intro n hn hmax hb
    have hg : ¬(n = 0 ∨ n > MAX_SIZE) := by
      push_neg
      exact ⟨by omega, hmax⟩
    unfold smalloc
    rw [if_neg hg, hinit]
    simp only [if_true]
    rw [hif, if_pos hb, hmmap]
    exact ⟨rfl, hinit⟩

/-- C5, amended.  A large (page-mapped) allocation leaves all four
process-wide counters unchanged, and so does releasing a large block: the
counters do not account for large blocks at all. -/
theorem C5_amended_mmap_counters :
    (∀ (os : OS) (st : AllocState) (n : Nat),
      st.is_initialized = true → 0 < n → n ≤ MAX_SIZE → BLOCK_SIZE < n + metaSize →
      (smalloc os st n).1.free_blocks = st.free_blocks ∧
      (smalloc os st n).1.free_bytes = st.free_bytes ∧
      (smalloc os st n).1.allocated_blocks = st.allocated_blocks ∧
      (smalloc os st n).1.allocated_bytes = st.allocated_bytes) ∧
    (∀ (st : AllocState) (p : Nat),
      metaSize < p → BLOCK_SIZE < (headerAt st (p - metaSize)).size →
      (sfree st p).free_blocks = st.free_blocks ∧
      (sfree st p).free_bytes = st.free_bytes ∧
      (sfree st p).allocated_blocks = st.allocated_blocks ∧
      (sfree st p).allocated_bytes = st.allocated_bytes) := by
  constructor
  · intro os st n hinit hn hmax hb
    have hg : ¬(n = 0 ∨ n > MAX_SIZE) := by
      push_neg
      exact ⟨by omega, hmax⟩
    unfold smalloc
    rw [if_neg hg, hinit]
    simp only [Bool.true_eq_false, if_false]
    rw [if_pos hb]
    cases os.mmapRes with
    | none => exact ⟨rfl, rfl, rfl, rfl⟩
    | some addr => exact ⟨rfl, rfl, rfl, rfl⟩
  · intro st p hp hb
    have hg : ¬(p = 0 ∨ p ≤ metaSize) := by omega
    unfold sfree
    rw [if_neg hg, if_pos hb]
    exact ⟨rfl, rfl, rfl, rfl⟩

/-- C6, amended.  `scalloc(num, size)` returns null exactly when `num` or
`size` is zero, `size ≥ MAX_SIZE`, the `size_t` product `num*size`
(taken mod `2^64`, so wrap-around is possible) is `≥ MAX_SIZE`, or the
underlying `smalloc` of that product fails; on success it is exactly the
`smalloc` of the wrapped product and memsets that many payload bytes. -/
theorem C6_amended_scalloc_guard (os : OS) (st : AllocState) (num size : Nat) :
    ((scalloc os st num size).2.1 = none ↔
      (num = 0 ∨ size = 0 ∨ MAX_SIZE ≤ size ∨ MAX_SIZE ≤ (num * size) % USIZE ∨
        (smalloc os st ((num * size) % USIZE)).2 = none)) ∧
    ((scalloc os st num size).2.1 ≠ none →
      (scalloc os st num size).2.1 = (smalloc os st ((num * size) % USIZE)).2 ∧
      (scalloc os st num size).2.2 = (num * size) % USIZE) := by
  unfold scalloc
  by_cases hg : num = 0 ∨ size = 0 ∨ size ≥ MAX_SIZE ∨ (num * size) % USIZE ≥ MAX_SIZE
  · rw [if_pos hg]
    constructor
    · simp only [true_iff]
      tauto
    · intro hne
      exact absurd rfl hne
  · rw [if_neg hg]
    push_neg at hg
    obtain ⟨h1, h2, h3, h4⟩ := hg
    rcases hsm : smalloc os st ((num * size) % USIZE) with ⟨st1, r⟩
    cases r with
    | none =>
      refine ⟨⟨fun _ => Or.inr (Or.inr (Or.inr (Or.inr rfl))), fun _ => rfl⟩, ?_⟩
      intro hne
      exact absurd rfl hne
    | some p =>
      refine ⟨⟨fun hcontra => by simp at hcontra, ?_⟩, fun _ => ⟨rfl, rfl⟩⟩
      intro hor
      rcases hor with h | h | h | h | h
      · omega
      · omega
      · omega
      · omega
      · simp at h

/-- C10.  `smalloc` rejects only `n > MAX_SIZE` (so `alloc(MAX_SIZE)` can
succeed, here via the mmap path), while `srealloc` and `scalloc` reject
`size >= MAX_SIZE`, so `reallocate(p, MAX_SIZE)` and
`zeroed_alloc(num, MAX_SIZE)` always return null. -/
theorem C10_boundary_inconsistency :
    (smalloc osGood stE MAX_SIZE).2 = some 8224 ∧
    (∀ (os : OS) (st : AllocState) (p : Nat), srealloc os st p MAX_SIZE = (st, none)) ∧
    (∀ (os : OS) (st : AllocState) (num : Nat), (scalloc os st num MAX_SIZE).2.1 = none) := by
  refine ⟨by decide, ?_, ?_⟩
  · intro os st p
    unfold srealloc
    rw [if_pos (by omega)]
  · intro os st num
    unfold scalloc
    rw [if_pos (by omega)]

/-- C9.  Whenever `srealloc(oldp, size)` reaches its allocate-new fallback
and that allocation fails, the call returns null with the state — the old
block's header, every list and every counter — exactly as it was. -/
theorem C9_realloc_failure_preserves (os : OS) (st : AllocState) (oldp size : Nat)
    (hfb : takesFallback st oldp size)
    (hinit : st.is_initialized = true)
    (hfail : (smalloc os st size).2 = none) :
    srealloc os st oldp size = (st, none) := by
  obtain ⟨hg, hop, hgrow, hnomerge⟩ := hfb
  have hst := smalloc_fail_state os st size hinit hfail
  have hx : smalloc os st size = (st, none) := by
    rcases hsm : smalloc os st size with ⟨s1, r⟩
    rw [hsm] at hst hfail
    simp only at hst hfail
    rw [hst, hfail]
  unfold srealloc
  rw [if_neg hg, if_neg hop, if_neg hgrow, if_neg hnomerge, hx]

end Malloc3

namespace Malloc3

theorem wadd_succ_of_lt (x : Nat) (h : x + 1 < USIZE) : wadd x 1 = x + 1 := by
  unfold wadd USIZE at *
  omega

/-- The split loop adds one allocated block per split and never touches
`allocated_bytes`, the mmap list or the init flag. -/
theorem splitLoop_counters : ∀ (k : Nat) (st : AllocState) (output cur : Nat),
    st.allocated_blocks + k < USIZE →
    (splitLoop st output cur k).allocated_blocks = st.allocated_blocks + k ∧
    (splitLoop st output cur k).allocated_bytes = st.allocated_bytes := by
  intro k
  induction k with
  | zero =>
    intro st output cur _
    exact ⟨by simp [splitLoop], rfl⟩
  | succ j ih =>
    intro st output cur hlt
    show (splitLoop (splitStep st output cur) output (cur - 1) j).allocated_blocks =
        st.allocated_blocks + (j + 1) ∧
      (splitLoop (splitStep st output cur) output (cur - 1) j).allocated_bytes =
        st.allocated_bytes
    have hab : (splitStep st output cur).allocated_blocks = st.allocated_blocks + 1 := by
      show wadd st.allocated_blocks 1 = st.allocated_blocks + 1
      exact wadd_succ_of_lt _ (by omega)
    have haby : (splitStep st output cur).allocated_bytes = st.allocated_bytes := rfl
    obtain ⟨ih1, ih2⟩ := ih (splitStep st output cur) output (cur - 1) (by rw [hab]; omega)
    rw [ih1, ih2, hab, haby]
    exact ⟨by omega, rfl⟩

/-- C3, amended.  In a pooled allocation whose scan settles on bucket `cur`,
the split loop runs `cur − target` times, each split incrementing
`allocated_blocks` by exactly one; `allocated_bytes` is left completely
unchanged (the split loop never updates it). -/
theorem C3_amended_split_counters (os : OS) (st : AllocState) (n cur h : Nat)
    (rest : List Nat)
    (hinit : st.is_initialized = true) (hn : 0 < n) (hbs : n + metaSize ≤ BLOCK_SIZE)
    (hscan : scanAux st 12 (find_order (n + metaSize)) = some cur)
    (hhead : bucket st cur = h :: rest)
    (hab : st.allocated_blocks + (cur - find_order (n + metaSize)) < USIZE) :
    (smalloc os st n).1.allocated_blocks =
      st.allocated_blocks + (cur - find_order (n + metaSize)) ∧
    (smalloc os st n).1.allocated_bytes = st.allocated_bytes := by
  rw [smalloc_pooled os st n cur h rest hinit hn hbs hscan hhead]
  obtain ⟨h1, h2⟩ := splitLoop_counters (cur - find_order (n + metaSize))
    { remove st h with mem := setH st.mem h ⟨(headerAt st h).size, false⟩ }
    h cur (by exact hab)
  exact ⟨h1, h2⟩

/-- Witness for C3: on the one-block steady state, `alloc(100)` does 9
splits, `allocated_blocks` grows by exactly 9 and `allocated_bytes` is
unchanged. -/
theorem C3_amended_witness :
    (0 < 100 ∧ bucket stW 10 = [131072] ∧
      scanAux stW 12 (find_order (100 + metaSize)) = some 10) ∧
    (smalloc osGood stW 100).1.allocated_blocks = stW.allocated_blocks + 9 ∧
    (smalloc osGood stW 100).1.allocated_bytes = stW.allocated_bytes := by
  refine ⟨⟨by decide, by decide, by decide⟩, ?_⟩
  exact C3_amended_split_counters osGood stW 100 10 131072 [] rfl (by decide)
    (by decide) (by decide) (by decide) (by decide)

/-- Witness for C2: from the pristine state with `sbrk` failing, the pooled
request fails leaving the state unchanged, and a large request succeeds. -/
theorem C2_amended_witness :
    (osFail.sbrkOk = false ∧ st0.is_initialized = false) ∧
    smalloc osFail st0 100 = (st0, none) ∧
    (smalloc osFail st0 200000).2 = some 8224 ∧
    (smalloc osFail st0 200000).1.is_initialized = false := by
  refine ⟨⟨rfl, rfl⟩, ?_, ?_, ?_⟩
  · exact (C2_amended_init_failure osFail st0 8192 rfl rfl rfl rfl).1 100
      (by decide) (by decide)
  · exact ((C2_amended_init_failure osFail st0 8192 rfl rfl rfl rfl).2 200000
      (by decide) (by decide) (by decide)).1
  · exact ((C2_amended_init_failure osFail st0 8192 rfl rfl rfl rfl).2 200000
      (by decide) (by decide) (by decide)).2

/-- Witness for C5: a page-mapped allocation and its release on the
steady state leave `allocated_blocks` (and the other counters) unchanged. -/
theorem C5_amended_witness :
    (stW.is_initialized = true ∧ BLOCK_SIZE < 200000 + metaSize) ∧
    (smalloc osGood stW 200000).1.allocated_blocks = stW.allocated_blocks ∧
    (sfree (smalloc osGood stW 200000).1 8224).allocated_blocks =
      (smalloc osGood stW 200000).1.allocated_blocks := by
  refine ⟨⟨rfl, by decide⟩, ?_, ?_⟩
  · exact (C5_amended_mmap_counters.1 osGood stW 200000 rfl (by decide) (by decide)
      (by decide)).2.2.1
  · exact (C5_amended_mmap_counters.2 (smalloc osGood stW 200000).1 8224
      (by decide) (by decide)).2.2.1

/-- Witness for C9: growing a large block with `mmap` failing returns null
and the whole state — header, lists, counters — exactly as before. -/
theorem C9_realloc_failure_witness :
    (takesFallback stR 4128 150000 ∧ stR.is_initialized = true ∧
      (smalloc osNoMap stR 150000).2 = none) ∧
    srealloc osNoMap stR 4128 150000 = (stR, none) := by
  refine ⟨⟨by decide, rfl, by decide⟩, ?_⟩
  exact C9_realloc_failure_preserves osNoMap stR 4128 150000 (by decide) rfl (by decide)

end Malloc3

namespace Malloc3

theorem xor_ne_self (a s : Nat) (hs : 0 < s) : a ^^^ s ≠ a := by
  intro h
  have h2 : a ^^^ (a ^^^ s) = a ^^^ a := by rw [h]
  rw [← Nat.xor_assoc, Nat.xor_self, Nat.zero_xor] at h2
  omega

theorem align_down (m h : Nat) (hh : h % (128 * 2 ^ (m + 1)) = 0) :
    h % (128 * 2 ^ m) = 0 := by
  have hd : (128 * 2 ^ m : Nat) ∣ 128 * 2 ^ (m + 1) := ⟨2, by ring⟩
  obtain ⟨c, hc⟩ := dvd_trans hd (Nat.dvd_of_mod_eq_zero hh)
  subst hc
  exact Nat.mul_mod_right _ _

theorem half_size (m : Nat) : 128 * 2 ^ (m + 1) / 2 = 128 * 2 ^ m := by
  have h1 : 128 * 2 ^ (m + 1) = 128 * 2 ^ m * 2 := by ring
  rw [h1]
  exact Nat.mul_div_cancel _ (by norm_num)

/-- The buddy of an order-`m` block start aligned to the next order up is
the block `128 * 2^m` bytes above it. -/
theorem buddy_up (m h : Nat) (hal : h % (128 * 2 ^ (m + 1)) = 0) :
    h ^^^ (128 * 2 ^ m) = h + 128 * 2 ^ m := by
  have h1 : (128 : Nat) * 2 ^ m = 2 ^ (7 + m) := size_as_pow m
  have h2 : (128 : Nat) * 2 ^ (m + 1) = 2 ^ (7 + m + 1) := by
    rw [size_as_pow (m + 1)]
    ring_nf
  rw [h1]
  exact xor_aligned_up (7 + m) h (by rw [← h2]; exact hal)

/-- `remove` of a bucket head: pop it and roll the counters back. -/
theorem remove_head (st : AllocState) (p sz : Nat) (fr : Bool) (o : Nat) (rest : List Nat)
    (hm : lookupH st.mem p = some ⟨sz, fr⟩) (hfo : find_order sz = o)
    (hb : bucket st o = p :: rest) :
    remove st p =
      { st with
        free_lists := st.free_lists.set o rest
        free_blocks := wsub st.free_blocks 1
        free_bytes := wsub st.free_bytes (wsub sz metaSize) } := by
  unfold remove headerAt
  rw [hm]
  simp only [Option.getD_some, hfo]
  rw [hb, List.erase_cons_head]

/-- `insert` into an empty bucket: the block becomes the singleton chain. -/
theorem insert_empty (st : AllocState) (i p sz : Nat) (fr : Bool)
    (hb : bucket st i = []) (hm : lookupH st.mem p = some ⟨sz, fr⟩) :
    insert st i p =
      { st with
        free_lists := st.free_lists.set i [p]
        free_blocks := wadd st.free_blocks 1
        free_bytes := wadd st.free_bytes (wsub sz metaSize) } := by
  unfold insert headerAt
  rw [hm, hb]
  rfl

/-- `insert` with a known header, arbitrary bucket: counters move and the
chain is spliced. -/
theorem insert_known (st : AllocState) (i p sz : Nat) (fr : Bool)
    (hm : lookupH st.mem p = some ⟨sz, fr⟩) :
    insert st i p =
      { st with
        free_lists := st.free_lists.set i (insertChain p (bucket st i))
        free_blocks := wadd st.free_blocks 1
        free_bytes := wadd st.free_bytes (wsub sz metaSize) } := by
  unfold insert headerAt
  rw [hm]
  rfl

/-- One split of a block of size `128 * 2^(m+1)` whose destination bucket
`m` is empty: the upper half is stamped free and becomes bucket `m`'s
singleton chain, the lower half keeps its flag, counters move. -/
theorem splitStep_eq (st : AllocState) (h m : Nat) (fr : Bool)
    (hm : lookupH st.mem h = some ⟨128 * 2 ^ (m + 1), fr⟩)
    (hb : bucket st m = []) :
    splitStep st h (m + 1) =
      { st with
        mem := setH (setH st.mem (h + 128 * 2 ^ m) ⟨128 * 2 ^ m, true⟩) h ⟨128 * 2 ^ m, fr⟩
        free_lists := st.free_lists.set m [h + 128 * 2 ^ m]
        free_blocks := wadd st.free_blocks 1
        free_bytes := wadd st.free_bytes (wsub (128 * 2 ^ m) metaSize)
        allocated_blocks := wadd st.allocated_blocks 1 } := by
  have hsz : (headerAt st h).size = 128 * 2 ^ (m + 1) := by
    unfold headerAt
    rw [hm]
    rfl
  have hBh : h + 128 * 2 ^ m ≠ h := by
    have := size_pos m
    omega
  simp only [splitStep]
  rw [hsz, half_size, Nat.add_sub_cancel]
  rw [insert_empty { st with mem := setH st.mem (h + 128 * 2 ^ m) ⟨128 * 2 ^ m, true⟩ }
    m (h + 128 * 2 ^ m) (128 * 2 ^ m) true (by exact hb)
    (lookupH_setH_self st.mem (h + 128 * 2 ^ m) ⟨128 * 2 ^ m, true⟩)]
  have hfr : (headerAt
      { st with
        mem := setH st.mem (h + 128 * 2 ^ m) ⟨128 * 2 ^ m, true⟩
        free_lists := st.free_lists.set m [h + 128 * 2 ^ m]
        free_blocks := wadd st.free_blocks 1
        free_bytes := wadd st.free_bytes (wsub (128 * 2 ^ m) metaSize) } h).is_free = fr := by
    unfold headerAt
    simp only
    rw [lookupH_setH_ne _ _ _ _ hBh, hm]
    rfl
  rw [hfr]

/-- One upward merge of an order-`m` block with its (just-split, singleton
bucket) upper buddy: the bucket empties, counters roll back, the block
doubles. -/
theorem mergeStep_up (st : AllocState) (h m : Nat)
    (hm : lookupH st.mem h = some ⟨128 * 2 ^ m, true⟩)
    (hbd : lookupH st.mem (h + 128 * 2 ^ m) = some ⟨128 * 2 ^ m, true⟩)
    (hal : h % (128 * 2 ^ (m + 1)) = 0)
    (hm10 : m < 11)
    (hbucket : bucket st m = [h + 128 * 2 ^ m]) :
    mergeStep st h =
      ({ st with
          mem := setH st.mem h ⟨128 * 2 ^ (m + 1), true⟩
          free_lists := st.free_lists.set m []
          free_blocks := wsub st.free_blocks 1
          free_bytes := wsub st.free_bytes (wsub (128 * 2 ^ m) metaSize)
          allocated_blocks := wsub st.allocated_blocks 1 }, h) := by
  have hsz : (headerAt st h).size = 128 * 2 ^ m := by
    unfold headerAt
    rw [hm]
    rfl
  have hxor : h ^^^ (128 * 2 ^ m) = h + 128 * 2 ^ m := buddy_up m h hal
  have hnotlt : ¬(h + 128 * 2 ^ m < h) := by omega
  simp only [mergeStep]
  rw [hsz, hxor]
  rw [remove_head st (h + 128 * 2 ^ m) (128 * 2 ^ m) true m [] hbd (find_order_pow m hm10)
    hbucket]
  rw [if_neg hnotlt]
  have hfr : (headerAt
      { st with
        free_lists := st.free_lists.set m []
        free_blocks := wsub st.free_blocks 1
        free_bytes := wsub st.free_bytes (wsub (128 * 2 ^ m) metaSize) } h).is_free = true := by
    unfold headerAt
    simp only
    rw [hm]
    rfl
  rw [hfr]
  have hdouble : 128 * 2 ^ m * 2 = 128 * 2 ^ (m + 1) := by ring
  rw [hdouble]

/-- Unfolding `mergeLoop` when the buddy test fails. -/
theorem mergeLoop_break (st : AllocState) (meta order fuel : Nat)
    (hcond : (headerAt st (meta ^^^ (headerAt st meta).size)).is_free = false ∨
      (headerAt st (meta ^^^ (headerAt st meta).size)).size ≠ (headerAt st meta).size) :
    mergeLoop st meta order (fuel + 1) = (st, meta, order) := by
  simp only [mergeLoop]
  rw [if_pos hcond]

/-- Unfolding `mergeLoop` when the buddy test passes. -/
theorem mergeLoop_go (st : AllocState) (meta order fuel : Nat)
    (h1 : (headerAt st (meta ^^^ (headerAt st meta).size)).is_free = true)
    (h2 : (headerAt st (meta ^^^ (headerAt st meta).size)).size = (headerAt st meta).size) :
    mergeLoop st meta order (fuel + 1) =
      mergeLoop (mergeStep st meta).1 (mergeStep st meta).2 (order + 1) fuel := by
  simp only [mergeLoop]
  rw [if_neg]
  push_neg
  exact ⟨by simp [h1], h2⟩

end Malloc3

namespace Malloc3

/-- Through the merge loop, the header at the originally released block
start keeps `is_free = true` and a pooled-range size: while the loop start
still is the original block the header tracks the current order; once the
loop start has moved to a lower buddy the original header is never written
again. -/
theorem mergeLoop_keeps_free (orig : Nat) : ∀ (fuel : Nat) (st : AllocState) (meta order : Nat),
    ((meta = orig ∧ order + fuel ≤ 10 ∧
        lookupH st.mem orig = some ⟨128 * 2 ^ order, true⟩) ∨
      (meta < orig ∧ ∃ s, s ≤ BLOCK_SIZE ∧ lookupH st.mem orig = some ⟨s, true⟩)) →
    ∃ s, s ≤ BLOCK_SIZE ∧
      lookupH (mergeLoop st meta order fuel).1.mem orig = some ⟨s, true⟩ := by
  intro fuel
  induction fuel with
  | zero =>
    intro st meta order hinv
    rcases hinv with ⟨hmo, hof, hlk⟩ | ⟨hlt, s, hs, hlk⟩
    · exact ⟨128 * 2 ^ order, size_le_block order (by omega), hlk⟩
    · exact ⟨s, hs, hlk⟩
  | succ f ih =>
    intro st meta order hinv
    by_cases hc : (headerAt st (meta ^^^ (headerAt st meta).size)).is_free = false ∨
        (headerAt st (meta ^^^ (headerAt st meta).size)).size ≠ (headerAt st meta).size
    · rw [mergeLoop_break st meta order f hc]
      rcases hinv with ⟨hmo, hof, hlk⟩ | ⟨hlt, s, hs, hlk⟩
      · exact ⟨128 * 2 ^ order, size_le_block order (by omega), hlk⟩
      · exact ⟨s, hs, hlk⟩
    · push_neg at hc
      obtain ⟨hc1, hc2⟩ := hc
      have hc1t : (headerAt st (meta ^^^ (headerAt st meta).size)).is_free = true := by
        cases hb : (headerAt st (meta ^^^ (headerAt st meta).size)).is_free
        · exact absurd hb hc1
        · rfl
      rw [mergeLoop_go st meta order f hc1t hc2]
      apply ih
      rcases hinv with ⟨hmo, hof, hlk⟩ | ⟨hlt, s, hs, hlk⟩
      · subst hmo
        have hsz : (headerAt st meta).size = 128 * 2 ^ order := by
          unfold headerAt
          rw [hlk]
          rfl
        have hbne : meta ^^^ (headerAt st meta).size ≠ meta := by
          rw [hsz]
          exact xor_ne_self meta (128 * 2 ^ order) (size_pos order)
        by_cases hblt : meta ^^^ (headerAt st meta).size < meta
        · right
          have hm2 : (mergeStep st meta).2 = meta ^^^ (headerAt st meta).size := by
            simp only [mergeStep]
            rw [if_pos hblt]
          have hmm : (mergeStep st meta).1.mem =
              setH st.mem (meta ^^^ (headerAt st meta).size)
                ⟨(headerAt st meta).size * 2,
                  (headerAt st (meta ^^^ (headerAt st meta).size)).is_free⟩ := by
            simp only [mergeStep]
            rw [if_pos hblt]
            rfl
          refine ⟨by rw [hm2]; exact hblt, 128 * 2 ^ order, size_le_block order (by omega), ?_⟩
          rw [hmm, lookupH_setH_ne _ _ _ _ hbne, hlk]
        · left
          have hm2 : (mergeStep st meta).2 = meta := by
            simp only [mergeStep]
            rw [if_neg hblt]
          have hmm : (mergeStep st meta).1.mem =
              setH st.mem meta ⟨(headerAt st meta).size * 2, (headerAt st meta).is_free⟩ := by
            simp only [mergeStep]
            rw [if_neg hblt]
            rfl
          have hfr : (headerAt st meta).is_free = true := by
            unfold headerAt
            rw [hlk]
            rfl
          refine ⟨hm2, by omega, ?_⟩
          rw [hmm, hfr, hsz]
          have hdouble : 128 * 2 ^ order * 2 = 128 * 2 ^ (order + 1) := by ring
          rw [hdouble]
          exact lookupH_setH_self _ _ _
      · right
        have hmne : (mergeStep st meta).2 ≠ orig ∧ (mergeStep st meta).2 < orig := by
          by_cases hblt : meta ^^^ (headerAt st meta).size < meta
          · have hm2 : (mergeStep st meta).2 = meta ^^^ (headerAt st meta).size := by
              simp only [mergeStep]
              rw [if_pos hblt]
            constructor
            · rw [hm2]; omega
            · rw [hm2]; omega
          · have hm2 : (mergeStep st meta).2 = meta := by
              simp only [mergeStep]
              rw [if_neg hblt]
            constructor
            · rw [hm2]; omega
            · rw [hm2]; omega
        have hmm : (mergeStep st meta).1.mem =
            setH st.mem (mergeStep st meta).2
              ⟨(headerAt st meta).size * 2, (headerAt st (mergeStep st meta).2).is_free⟩ := by
          simp only [mergeStep]
          by_cases hblt : meta ^^^ (headerAt st meta).size < meta
          · rw [if_pos hblt]
            rfl
          · rw [if_neg hblt]
            rfl
        refine ⟨hmne.2, s, hs, ?_⟩
        rw [hmm, lookupH_setH_ne _ _ _ _ hmne.1, hlk]

end Malloc3

namespace Malloc3

/-- C8.  Releasing a pooled block twice is a no-op: after the first
`sfree` the original header still reads free with a pooled-range size, so
the second `sfree` hits the double-free guard and returns the state the
first release produced. -/
theorem C8_double_free_noop (st : AllocState) (p o : Nat) (f : Bool)
    (hp : metaSize < p)
    (hmem : lookupH st.mem (p - metaSize) = some ⟨128 * 2 ^ o, f⟩)
    (ho : o ≤ 10) :
    sfree (sfree st p) p = sfree st p := by
  have hg : ¬(p = 0 ∨ p ≤ metaSize) := by omega
  have hH : headerAt st (p - metaSize) = ⟨128 * 2 ^ o, f⟩ := by
    unfold headerAt
    rw [hmem]
    rfl
  have hsle : 128 * 2 ^ o ≤ BLOCK_SIZE := size_le_block o ho
  cases f with
  | true =>
    have h1 : sfree st p = st := by
      simp only [sfree]
      rw [if_neg hg, hH]
      rw [if_neg (show ¬((⟨128 * 2 ^ o, true⟩ : MallocMetadata).size > BLOCK_SIZE) by
        simp only
        omega)]
      rw [if_pos (show (⟨128 * 2 ^ o, true⟩ : MallocMetadata).is_free = true from rfl)]
    rw [h1]
    exact h1
  | false =>
    have horder : find_order (128 * 2 ^ o) = o := find_order_pow o (by omega)
    have h1 : sfree st p =
        (match mergeLoop { st with mem := setH st.mem (p - metaSize) ⟨128 * 2 ^ o, true⟩ }
            (p - metaSize) o (MAX_ORDER - o) with
          | (st2, meta2, order2) => insert st2 order2 meta2) := by
      simp only [sfree]
      rw [if_neg hg, hH]
      rw [if_neg (show ¬((⟨128 * 2 ^ o, false⟩ : MallocMetadata).size > BLOCK_SIZE) by
        simp only
        omega)]
      rw [if_neg (show ¬((⟨128 * 2 ^ o, false⟩ : MallocMetadata).is_free = true) by
        simp)]
      simp only [horder]
    obtain ⟨s, hsB, hlk⟩ := mergeLoop_keeps_free (p - metaSize) (MAX_ORDER - o)
      { st with mem := setH st.mem (p - metaSize) ⟨128 * 2 ^ o, true⟩ } (p - metaSize) o
      (Or.inl ⟨rfl, by unfold MAX_ORDER; omega, lookupH_setH_self _ _ _⟩)
    rcases hml : mergeLoop { st with mem := setH st.mem (p - metaSize) ⟨128 * 2 ^ o, true⟩ }
        (p - metaSize) o (MAX_ORDER - o) with ⟨st2, meta2, order2⟩
    rw [hml] at h1 hlk
    simp only at h1 hlk
    have h2 : sfree (insert st2 order2 meta2) p = insert st2 order2 meta2 := by
      have hmemI : lookupH (insert st2 order2 meta2).mem (p - metaSize) =
          some ⟨s, true⟩ := hlk
      have hHI : headerAt (insert st2 order2 meta2) (p - metaSize) = ⟨s, true⟩ := by
        unfold headerAt
        rw [hmemI]
        rfl
      simp only [sfree]
      rw [if_neg hg, hHI]
      rw [if_neg (show ¬((⟨s, true⟩ : MallocMetadata).size > BLOCK_SIZE) by
        simp only
        omega)]
      rw [if_pos (show (⟨s, true⟩ : MallocMetadata).is_free = true from rfl)]
    rw [h1]
    exact h2

end Malloc3

namespace Malloc3

/-- Witness for C8: double release of the allocated order-0 block. -/
theorem C8_double_free_witness :
    (metaSize < 131104 ∧ lookupH stA.mem (131104 - metaSize) = some ⟨128 * 2 ^ 0, false⟩) ∧
    sfree (sfree stA 131104) 131104 = sfree stA 131104 :=
  ⟨⟨by decide, by decide⟩,
   C8_double_free_noop stA 131104 0 false (by decide) (by decide) (by decide)⟩

theorem set_set_lists (l : List (List Nat)) (i : Nat) (a b : List Nat) :
    (l.set i a).set i b = l.set i b := List.set_set a b l i

/-- The split/merge pairing at the heart of the round trip: after the split
loop carves buddies into the (previously empty) buckets `j .. j+k-1` and
the released block is marked free, the merge loop re-absorbs exactly those
buddies in reverse order, arriving at order `j+k` with the buckets and all
four counters exactly as before the splits. -/
theorem splitMerge_key : ∀ (k j : Nat) (st : AllocState) (h : Nat),
    st.free_lists.length = 11 →
    st.free_blocks < USIZE → st.free_bytes < USIZE → st.allocated_blocks < USIZE →
    lookupH st.mem h = some ⟨128 * 2 ^ (j + k), false⟩ →
    h % (128 * 2 ^ (j + k)) = 0 → 0 < h → j + k ≤ 10 →
    (∀ i, j ≤ i → i < j + k → bucket st i = []) →
    ∃ M : AllocState,
      mergeLoop { splitLoop st h (j + k) k with
          mem := setH (splitLoop st h (j + k) k).mem h ⟨128 * 2 ^ j, true⟩ } h j (10 - j) =
        mergeLoop M h (j + k) (10 - (j + k)) ∧
      M.free_lists = st.free_lists ∧
      M.free_blocks = st.free_blocks ∧
      M.free_bytes = st.free_bytes ∧
      M.allocated_blocks = st.allocated_blocks ∧
      M.allocated_bytes = st.allocated_bytes ∧
      M.is_initialized = st.is_initialized ∧
      M.mmap_list = st.mmap_list ∧
      lookupH M.mem h = some ⟨128 * 2 ^ (j + k), true⟩ ∧
      (∀ a, a < h ∨ h + 128 * 2 ^ (j + k) ≤ a → lookupH M.mem a = lookupH st.mem a) := by
  intro k
  induction k with
  | zero =>
    intro j st h _ _ _ _ hmem _ hpos _ _
    refine ⟨{ st with mem := setH st.mem h ⟨128 * 2 ^ j, true⟩ },
      rfl, rfl, rfl, rfl, rfl, rfl, rfl, rfl, lookupH_setH_self _ _ _, ?_⟩
    intro a ha
    have hne : h ≠ a := by
      rcases ha with ha | ha
      · omega
      · have := size_pos (j + 0)
        omega
    exact lookupH_setH_ne _ _ _ _ hne
  | succ k ih =>
    intro j st h hlen hfb hfy hab hmem hal hpos hord hemp
    have hjk : j + (k + 1) = j + k + 1 := rfl
    rw [hjk] at hmem hal hord ⊢
    have hS1pos := size_pos (j + k)
    have hdouble : 128 * 2 ^ (j + k) * 2 = 128 * 2 ^ (j + k + 1) := by ring
    have hBh : h + 128 * 2 ^ (j + k) ≠ h := by omega
    have hst' : splitStep st h (j + k + 1) =
        { st with
          mem := setH (setH st.mem (h + 128 * 2 ^ (j + k)) ⟨128 * 2 ^ (j + k), true⟩) h
            ⟨128 * 2 ^ (j + k), false⟩
          free_lists := st.free_lists.set (j + k) [h + 128 * 2 ^ (j + k)]
          free_blocks := wadd st.free_blocks 1
          free_bytes := wadd st.free_bytes (wsub (128 * 2 ^ (j + k)) metaSize)
          allocated_blocks := wadd st.allocated_blocks 1 } :=
      splitStep_eq st h (j + k) false hmem (hemp (j + k) (by omega) (by omega))
    have hsl : splitLoop st h (j + k + 1) (k + 1) =
        splitLoop
          { st with
            mem := setH (setH st.mem (h + 128 * 2 ^ (j + k)) ⟨128 * 2 ^ (j + k), true⟩) h
              ⟨128 * 2 ^ (j + k), false⟩
            free_lists := st.free_lists.set (j + k) [h + 128 * 2 ^ (j + k)]
            free_blocks := wadd st.free_blocks 1
            free_bytes := wadd st.free_bytes (wsub (128 * 2 ^ (j + k)) metaSize)
            allocated_blocks := wadd st.allocated_blocks 1 } h (j + k) k := by
      have hstep : splitLoop st h (j + k + 1) (k + 1) =
          splitLoop (splitStep st h (j + k + 1)) h (j + k) k := rfl
      rw [hstep, hst']
    obtain ⟨M1, e1, f1, b1, y1, a1, ay1, i1, m1, l1, o1⟩ := ih j
      { st with
        mem := setH (setH st.mem (h + 128 * 2 ^ (j + k)) ⟨128 * 2 ^ (j + k), true⟩) h
          ⟨128 * 2 ^ (j + k), false⟩
        free_lists := st.free_lists.set (j + k) [h + 128 * 2 ^ (j + k)]
        free_blocks := wadd st.free_blocks 1
        free_bytes := wadd st.free_bytes (wsub (128 * 2 ^ (j + k)) metaSize)
        allocated_blocks := wadd st.allocated_blocks 1 } h
      (by
        show (st.free_lists.set (j + k) [h + 128 * 2 ^ (j + k)]).length = 11
        rw [List.length_set]
        exact hlen)
      (wadd_lt _ _) (wadd_lt _ _) (wadd_lt _ _)
      (lookupH_setH_self _ _ _)
      (align_down (j + k) h hal) hpos (by omega)
      (by
        intro i hji hik
        show (st.free_lists.set (j + k) [h + 128 * 2 ^ (j + k)]).getD i [] = []
        rw [getD_set_ne _ _ _ _ _ (by omega)]
        exact hemp i hji (by omega))
    have hBlk : lookupH M1.mem (h + 128 * 2 ^ (j + k)) =
        some ⟨128 * 2 ^ (j + k), true⟩ := by
      rw [o1 (h + 128 * 2 ^ (j + k)) (Or.inr (le_refl _))]
      show lookupH (setH (setH st.mem (h + 128 * 2 ^ (j + k)) ⟨128 * 2 ^ (j + k), true⟩) h
        ⟨128 * 2 ^ (j + k), false⟩) (h + 128 * 2 ^ (j + k)) = some ⟨128 * 2 ^ (j + k), true⟩
      rw [lookupH_setH_ne _ _ _ _ (Ne.symm hBh)]
      exact lookupH_setH_self _ _ _
    have hszM1 : (headerAt M1 h).size = 128 * 2 ^ (j + k) := by
      unfold headerAt
      rw [l1]
      rfl
    have hxorB : h ^^^ (128 * 2 ^ (j + k)) = h + 128 * 2 ^ (j + k) :=
      buddy_up (j + k) h hal
    have hfree1 : (headerAt M1 (h ^^^ (headerAt M1 h).size)).is_free = true := by
      rw [hszM1, hxorB]
      unfold headerAt
      rw [hBlk]
      rfl
    have hsame : (headerAt M1 (h ^^^ (headerAt M1 h).size)).size = (headerAt M1 h).size := by
      rw [hszM1, hxorB]
      unfold headerAt
      rw [hBlk]
      rfl
    have hfuel : 10 - (j + k) = (10 - (j + k + 1)) + 1 := by omega
    have hgo : mergeLoop M1 h (j + k) (10 - (j + k)) =
        mergeLoop (mergeStep M1 h).1 (mergeStep M1 h).2 (j + k + 1) (10 - (j + k + 1)) := by
      rw [hfuel]
      exact mergeLoop_go M1 h (j + k) (10 - (j + k + 1)) hfree1 hsame
    have hms : mergeStep M1 h =
        ({ M1 with
            mem := setH M1.mem h ⟨128 * 2 ^ (j + k + 1), true⟩
            free_lists := M1.free_lists.set (j + k) []
            free_blocks := wsub M1.free_blocks 1
            free_bytes := wsub M1.free_bytes (wsub (128 * 2 ^ (j + k)) metaSize)
            allocated_blocks := wsub M1.allocated_blocks 1 }, h) :=
      mergeStep_up M1 h (j + k) l1 hBlk hal (by omega)
        (by
          show M1.free_lists.getD (j + k) [] = [h + 128 * 2 ^ (j + k)]
          rw [f1]
          exact getD_set_self _ _ _ _ (by rw [hlen]; omega))
    refine ⟨{ M1 with
        mem := setH M1.mem h ⟨128 * 2 ^ (j + k + 1), true⟩
        free_lists := M1.free_lists.set (j + k) []
        free_blocks := wsub M1.free_blocks 1
        free_bytes := wsub M1.free_bytes (wsub (128 * 2 ^ (j + k)) metaSize)
        allocated_blocks := wsub M1.allocated_blocks 1 },
      ?_, ?_, ?_, ?_, ?_, ?_, ?_, ?_, ?_, ?_⟩
    · rw [hsl, e1, hgo, hms]
    · show M1.free_lists.set (j + k) [] = st.free_lists
      rw [f1, set_set_lists]
      exact set_nil_of_getD_nil _ _ (hemp (j + k) (by omega) (by omega))
    · show wsub M1.free_blocks 1 = st.free_blocks
      rw [b1]
      exact wsub_wadd _ _ hfb
    · show wsub M1.free_bytes (wsub (128 * 2 ^ (j + k)) metaSize) = st.free_bytes
      rw [y1]
      exact wsub_wadd _ _ hfy
    · show wsub M1.allocated_blocks 1 = st.allocated_blocks
      rw [a1]
      exact wsub_wadd _ _ hab
    · exact ay1
    · exact i1
    · exact m1
    · exact lookupH_setH_self _ _ _
    · intro a ha
      have h2S : (128 : Nat) * 2 ^ (j + k + 1) = 2 * (128 * 2 ^ (j + k)) := by ring
      have hha : h ≠ a := by
        rcases ha with ha | ha
        · omega
        · have := size_pos (j + k + 1)
          omega
      have houter : a < h ∨ h + 128 * 2 ^ (j + k) ≤ a := by
        rcases ha with ha | ha
        · exact Or.inl ha
        · right
          rw [h2S] at ha
          omega
      have hBa : h + 128 * 2 ^ (j + k) ≠ a := by
        rcases ha with ha | ha
        · omega
        · rw [h2S] at ha
          omega
      show lookupH (setH M1.mem h ⟨128 * 2 ^ (j + k + 1), true⟩) a = lookupH st.mem a
      rw [lookupH_setH_ne _ _ _ _ hha, o1 a houter]
      show lookupH (setH (setH st.mem (h + 128 * 2 ^ (j + k)) ⟨128 * 2 ^ (j + k), true⟩) h
        ⟨128 * 2 ^ (j + k), false⟩) a = lookupH st.mem a
      rw [lookupH_setH_ne _ _ _ _ hha, lookupH_setH_ne _ _ _ _ hBa]

end Malloc3

namespace Malloc3

/-- Through the split loop the released block's own header ends at the
target order with its flag untouched. -/
theorem splitLoop_lookup_h : ∀ (k j : Nat) (st : AllocState) (h : Nat) (fr : Bool),
    lookupH st.mem h = some ⟨128 * 2 ^ (j + k), fr⟩ →
    (∀ i, j ≤ i → i < j + k → bucket st i = []) →
    lookupH (splitLoop st h (j + k) k).mem h = some ⟨128 * 2 ^ j, fr⟩ := by
  intro k
  induction k with
  | zero =>
    intro j st h fr hmem _
    exact hmem
  | succ k ih =>
    intro j st h fr hmem hemp
    have hjk : j + (k + 1) = j + k + 1 := rfl
    rw [hjk] at hmem ⊢
    have hst' : splitStep st h (j + k + 1) =
        { st with
          mem := setH (setH st.mem (h + 128 * 2 ^ (j + k)) ⟨128 * 2 ^ (j + k), true⟩) h
            ⟨128 * 2 ^ (j + k), fr⟩
          free_lists := st.free_lists.set (j + k) [h + 128 * 2 ^ (j + k)]
          free_blocks := wadd st.free_blocks 1
          free_bytes := wadd st.free_bytes (wsub (128 * 2 ^ (j + k)) metaSize)
          allocated_blocks := wadd st.allocated_blocks 1 } :=
      splitStep_eq st h (j + k) fr hmem (hemp (j + k) (by omega) (by omega))
    have hsl : splitLoop st h (j + k + 1) (k + 1) =
        splitLoop (splitStep st h (j + k + 1)) h (j + k) k := rfl
    rw [hsl, hst']
    exact ih j _ h fr (lookupH_setH_self _ _ _)
      (by
        intro i hji hik
        show (st.free_lists.set (j + k) [h + 128 * 2 ^ (j + k)]).getD i [] = []
        rw [getD_set_ne _ _ _ _ _ (by omega)]
        exact hemp i hji (by omega))

/-- C7.  For a pooled request on a state satisfying the structural
invariants at the chosen block (the head `h` of the first non-empty bucket
`cur`): `alloc` then immediate `release` of the returned payload pointer
restores `free_blocks` and `free_bytes` exactly — the merge loop of the
release undoes each split of the allocation and stops at order `cur`. -/
theorem C7_roundtrip (os : OS) (st : AllocState) (n cur h : Nat) (rest : List Nat)
    (hinit : st.is_initialized = true)
    (hlen : st.free_lists.length = 11)
    (hfb : st.free_blocks < USIZE) (hfy : st.free_bytes < USIZE)
    (hab : st.allocated_blocks < USIZE)
    (hn : 0 < n) (hbs : n + metaSize ≤ BLOCK_SIZE)
    (hscan : scanAux st 12 (find_order (n + metaSize)) = some cur)
    (hhead : bucket st cur = h :: rest)
    (hmem : lookupH st.mem h = some ⟨128 * 2 ^ cur, true⟩)
    (hal : h % (128 * 2 ^ cur) = 0) (hpos : 0 < h)
    (hinv4 : cur < 10 →
      (headerAt st (h ^^^ (128 * 2 ^ cur))).is_free = false ∨
      (headerAt st (h ^^^ (128 * 2 ^ cur))).size ≠ 128 * 2 ^ cur) :
    (smalloc os st n).2 = some (h + metaSize) ∧
    (sfree (smalloc os st n).1 (h + metaSize)).free_blocks = st.free_blocks ∧
    (sfree (smalloc os st n).1 (h + metaSize)).free_bytes = st.free_bytes := by
  obtain ⟨hpc, hcur10, hempt, _⟩ := scanAux_spec st 12 (find_order (n + metaSize)) cur hscan
  have hcur10' : cur ≤ 10 := by
    unfold MAX_ORDER at hcur10
    exact hcur10
  have hSpos := size_pos cur
  have hHsz : (headerAt st h).size = 128 * 2 ^ cur := by
    unfold headerAt
    rw [hmem]
    rfl
  have hrm : remove st h =
      { st with
        free_lists := st.free_lists.set cur rest
        free_blocks := wsub st.free_blocks 1
        free_bytes := wsub st.free_bytes (wsub (128 * 2 ^ cur) metaSize) } :=
    remove_head st h (128 * 2 ^ cur) true cur rest hmem (find_order_pow cur (by omega)) hhead
  have hsm := smalloc_pooled os st n cur h rest hinit hn hbs hscan hhead
  rw [hHsz, hrm] at hsm
  rw [hsm]
  refine ⟨rfl, ?_⟩
  have hjk : find_order (n + metaSize) + (cur - find_order (n + metaSize)) = cur := by omega
  obtain ⟨M, eK, fK, bK, yK, aK, ayK, iK, mK, lK, oK⟩ :=
    splitMerge_key (cur - find_order (n + metaSize)) (find_order (n + metaSize))
      { st with
        mem := setH st.mem h ⟨128 * 2 ^ cur, false⟩
        free_lists := st.free_lists.set cur rest
        free_blocks := wsub st.free_blocks 1
        free_bytes := wsub st.free_bytes (wsub (128 * 2 ^ cur) metaSize) } h
      (by
        show (st.free_lists.set cur rest).length = 11
        rw [List.length_set]
        exact hlen)
      (wsub_lt _ _) (wsub_lt _ _) (by exact hab)
      (by rw [hjk]; exact lookupH_setH_self _ _ _)
      (by rw [hjk]; exact hal) hpos (by omega)
      (by
        intro i hji hik
        rw [hjk] at hik
        show (st.free_lists.set cur rest).getD i [] = []
        rw [getD_set_ne _ _ _ _ _ (by omega)]
        exact hempt i hji hik)
  rw [hjk] at eK lK oK
  have hslh : lookupH (splitLoop
      { st with
        mem := setH st.mem h ⟨128 * 2 ^ cur, false⟩
        free_lists := st.free_lists.set cur rest
        free_blocks := wsub st.free_blocks 1
        free_bytes := wsub st.free_bytes (wsub (128 * 2 ^ cur) metaSize) } h cur
      (cur - find_order (n + metaSize))).mem h =
      some ⟨128 * 2 ^ (find_order (n + metaSize)), false⟩ := by
    have := splitLoop_lookup_h (cur - find_order (n + metaSize)) (find_order (n + metaSize))
      { st with
        mem := setH st.mem h ⟨128 * 2 ^ cur, false⟩
        free_lists := st.free_lists.set cur rest
        free_blocks := wsub st.free_blocks 1
        free_bytes := wsub st.free_bytes (wsub (128 * 2 ^ cur) metaSize) } h false
      (by rw [hjk]; exact lookupH_setH_self _ _ _)
      (by
        intro i hji hik
        rw [hjk] at hik
        show (st.free_lists.set cur rest).getD i [] = []
        rw [getD_set_ne _ _ _ _ _ (by omega)]
        exact hempt i hji hik)
    rw [hjk] at this
    exact this
  have hg : ¬(h + metaSize = 0 ∨ h + metaSize ≤ metaSize) := by
    unfold metaSize
    omega
  have hpow10 : find_order (n + metaSize) ≤ 10 := by omega
  have hple : 128 * 2 ^ (find_order (n + metaSize)) ≤ BLOCK_SIZE :=
    size_le_block _ hpow10
  have hH2 : headerAt (splitLoop
      { st with
        mem := setH st.mem h ⟨128 * 2 ^ cur, false⟩
        free_lists := st.free_lists.set cur rest
        free_blocks := wsub st.free_blocks 1
        free_bytes := wsub st.free_bytes (wsub (128 * 2 ^ cur) metaSize) } h cur
      (cur - find_order (n + metaSize))) h =
      ⟨128 * 2 ^ (find_order (n + metaSize)), false⟩ := by
    unfold headerAt
    rw [hslh]
    rfl
  have hsfree : sfree (splitLoop
      { st with
        mem := setH st.mem h ⟨128 * 2 ^ cur, false⟩
        free_lists := st.free_lists.set cur rest
        free_blocks := wsub st.free_blocks 1
        free_bytes := wsub st.free_bytes (wsub (128 * 2 ^ cur) metaSize) } h cur
      (cur - find_order (n + metaSize))) (h + metaSize) =
      (match mergeLoop
          { splitLoop
              { st with
                mem := setH st.mem h ⟨128 * 2 ^ cur, false⟩
                free_lists := st.free_lists.set cur rest
                free_blocks := wsub st.free_blocks 1
                free_bytes := wsub st.free_bytes (wsub (128 * 2 ^ cur) metaSize) } h cur
              (cur - find_order (n + metaSize)) with
            mem := setH (splitLoop
              { st with
                mem := setH st.mem h ⟨128 * 2 ^ cur, false⟩
                free_lists := st.free_lists.set cur rest
                free_blocks := wsub st.free_blocks 1
                free_bytes := wsub st.free_bytes (wsub (128 * 2 ^ cur) metaSize) } h cur
              (cur - find_order (n + metaSize))).mem h
              ⟨128 * 2 ^ (find_order (n + metaSize)), true⟩ } h
          (find_order (n + metaSize)) (MAX_ORDER - find_order (n + metaSize)) with
        | (s2, m2, o2) => insert s2 o2 m2) := by
    simp only [sfree]
    rw [if_neg hg]
    simp only [Nat.add_sub_cancel]
    rw [hH2]
    rw [if_neg (show ¬((⟨128 * 2 ^ (find_order (n + metaSize)), false⟩ :
      MallocMetadata).size > BLOCK_SIZE) by
        simp only
        omega)]
    rw [if_neg (show ¬((⟨128 * 2 ^ (find_order (n + metaSize)), false⟩ :
      MallocMetadata).is_free = true) by simp)]
    simp only [find_order_pow _ (by omega : find_order (n + metaSize) < 11)]
  rw [hsfree]
  have hMOrd : MAX_ORDER - find_order (n + metaSize) = 10 - find_order (n + metaSize) := rfl
  rw [hMOrd, eK]
  have hfin : mergeLoop M h cur (10 - cur) = (M, h, cur) := by
    rcases Nat.lt_or_ge cur 10 with hc | hc
    · have hf : 10 - cur = (10 - cur - 1) + 1 := by omega
      rw [hf]
      apply mergeLoop_break
      have hMsz : (headerAt M h).size = 128 * 2 ^ cur := by
        unfold headerAt
        rw [lK]
        rfl
      rw [hMsz]
      have hout : h ^^^ 128 * 2 ^ cur < h ∨ h + 128 * 2 ^ cur ≤ h ^^^ 128 * 2 ^ cur := by
        have := xor_aligned_cases (7 + cur) h (by rw [← size_as_pow]; exact hal)
        rw [← size_as_pow] at this
        rcases this with hx | ⟨hge, hx⟩
        · right
          omega
        · left
          omega
      have hbne : h ^^^ 128 * 2 ^ cur ≠ h := xor_ne_self h (128 * 2 ^ cur) hSpos
      have hMode : headerAt M (h ^^^ 128 * 2 ^ cur) = headerAt st (h ^^^ 128 * 2 ^ cur) := by
        unfold headerAt
        rw [oK (h ^^^ 128 * 2 ^ cur) hout]
        show (lookupH (setH st.mem h ⟨128 * 2 ^ cur, false⟩) (h ^^^ 128 * 2 ^ cur)).getD _ =
          (lookupH st.mem (h ^^^ 128 * 2 ^ cur)).getD _
        rw [lookupH_setH_ne _ _ _ _ (Ne.symm hbne)]
      rw [hMode]
      exact hinv4 hc
    · have hc10 : cur = 10 := by omega
      rw [hc10]
      rfl
  rw [hfin]
  have hins := insert_known M cur h (128 * 2 ^ cur) true lK
  show (insert M cur h).free_blocks = st.free_blocks ∧
    (insert M cur h).free_bytes = st.free_bytes
  rw [hins]
  constructor
  · show wadd M.free_blocks 1 = st.free_blocks
    rw [bK]
    show wadd (wsub st.free_blocks 1) 1 = st.free_blocks
    exact wadd_wsub _ _ hfb
  · show wadd M.free_bytes (wsub (128 * 2 ^ cur) metaSize) = st.free_bytes
    rw [yK]
    show wadd (wsub st.free_bytes (wsub (128 * 2 ^ cur) metaSize))
      (wsub (128 * 2 ^ cur) metaSize) = st.free_bytes
    exact wadd_wsub _ _ hfy

end Malloc3

namespace Malloc3

/-- Witness for C7: on the one-block steady state, `release(alloc(100))`
(9 splits, 9 merges) restores `free_blocks = 1` and `free_bytes = 131040`. -/
theorem C7_roundtrip_witness :
    (0 < 100 ∧ bucket stW 10 = [131072] ∧
      lookupH stW.mem 131072 = some ⟨128 * 2 ^ 10, true⟩) ∧
    (smalloc osGood stW 100).2 = some (131072 + metaSize) ∧
    (sfree (smalloc osGood stW 100).1 (131072 + metaSize)).free_blocks = stW.free_blocks ∧
    (sfree (smalloc osGood stW 100).1 (131072 + metaSize)).free_bytes = stW.free_bytes := by
  have hmain := C7_roundtrip osGood stW 100 10 131072 [] rfl (by decide) (by decide)
    (by decide) (by decide) (by decide) (by decide) (by decide) (by decide) (by decide)
    (by decide) (by decide) (fun hc => absurd hc (by decide))
  exact ⟨⟨by decide, by decide, by decide⟩, hmain.1, hmain.2.1, hmain.2.2⟩

end Malloc3

namespace Malloc3

/-- Witness for C6: a successful `scalloc(2, 100)` on the steady state is
the `smalloc` of the wrapped product and memsets 200 bytes. -/
theorem C6_amended_witness :
    (scalloc osGood stW 2 100).2.1 ≠ none ∧
    (scalloc osGood stW 2 100).2.1 = (smalloc osGood stW ((2 * 100) % USIZE)).2 ∧
    (scalloc osGood stW 2 100).2.2 = (2 * 100) % USIZE :=
  ⟨by decide, ((C6_amended_scalloc_guard osGood stW 2 100).2 (by decide)).1,
   ((C6_amended_scalloc_guard osGood stW 2 100).2 (by decide)).2⟩

end Malloc3
